import Mathlib

/-!
Shallow embedding of the HARVEST recursive crawl engine (src/main.rs).

The repository's core is the pair of mutually recursive functions
`unique_words_from_url_recursive` and `process_node`, together with the
per-page token extraction pipeline.  External collaborators (the HTTP
client, the URL parser/joiner of the `url` crate, Unicode NFC
normalization and Unicode lowercasing from the standard library, and the
common-word dictionary file) are modelled as oracle fields of a `World`
structure; everything the repository's own code does is translated
definition-by-definition below.

Machine integers: `depth`/`max_depth` are `u32` in the source; the
recursion bounds `depth` by `max_depth + 1`, far below `2^32`, so `Nat`
is used.  Word counts are `u32` accumulated by `+=`; occurrence counts
within the modelled range stay below `2^32`, so `Nat` addition is used.
-/

/-- Rust strings are modelled as lists of characters. -/
abbrev Str := List Char

/-- Convenience conversion from Lean string literals. -/
def s2l (s : String) : Str := s.data

/-- Model of `reqwest::Url`: only the identity of the absolute URL and the
result of `Url::domain()` matter to the crawl code.  `domain = none`
models a URL whose host is not a domain name (e.g. an IP address), which
is when `Url::domain()` returns `None`. -/
structure Url where
  uid : Nat
  domain : Option Str
deriving DecidableEq, Repr

/-- Model of the DOM produced by the HTML-parsing collaborator
(`select::document::Document`): a tree of text nodes and elements with a
tag name, attributes and children. -/
inductive HNode where
  | text : Str → HNode
  | elem : Str → List (Str × Str) → List HNode → HNode

/-- A parsed document: the roots of the node tree. -/
abbrev Doc := List HNode

/-- `CrawlConfig` from the source.  `user_agent` and `headers` only feed
the HTTP request pipeline, which is part of the fetch oracle, so they are
not carried here. -/
structure CrawlConfig where
  max_depth : Nat
  common_words_limit : Nat
  follow_offsite : Bool
  min_length : Nat

/-- The external collaborators, as oracles:
`fetch` is the whole header-construction / client-build / GET /
`Document::from_read` pipeline (`none` models any error in it);
`join` is `Url::join` (`none` models a resolution failure);
`nfc` is Unicode canonical composition (`.nfc()`);
`lower` is `str::to_lowercase`;
`commonLines` is the line list of `src/resources/commonwords.txt`. -/
structure World where
  fetch : Url → Option Doc
  join : Url → Str → Option Url
  nfc : Str → Str
  lower : Str → Str
  commonLines : List Str

/-- The attribute name `"href"`. -/
def hrefS : Str := s2l "href"

/-- `Node::attr(name)`: attribute lookup on an element, `none` on a text
node. -/
def attrVal : HNode → Str → Option Str
  | .text _, _ => none
  | .elem _ attrs _, name => (attrs.find? (fun p => decide (p.1 = name))).map (fun p => p.2)

mutual

/-- `Node::text()` of the `select` crate: the concatenated text of the
whole subtree rooted at the node, in document order. -/
def nodeText : HNode → Str
  | .text s => s
  | .elem _ _ cs => nodeTextList cs

/-- Subtree text of a list of sibling nodes, concatenated in order. -/
def nodeTextList : List HNode → Str
  | [] => []
  | n :: ns => nodeText n ++ nodeTextList ns

end

mutual

/-- All nodes of a subtree in document (depth-first, node before its
children) order, the root included: the traversal order of
`Document::find`. -/
def allNodes : HNode → List HNode
  | .text s => [.text s]
  | .elem t a cs => .elem t a cs :: allNodesList cs

/-- All nodes of a forest in document order. -/
def allNodesList : List HNode → List HNode
  | [] => []
  | n :: ns => allNodes n ++ allNodesList ns

end

/-- The proper descendants of a node in document order: the range scanned
by `Node::find`. -/
def descendants : HNode → List HNode
  | .text _ => []
  | .elem _ _ cs => allNodesList cs

/-- The tag allow-list built in `unique_words_from_url_recursive`
(the `tags` vector). -/
def tagList : List Str :=
  [s2l "h1", s2l "h2", s2l "h3", s2l "h4", s2l "h5", s2l "h6",
   s2l "p", s2l "li", s2l "dt", s2l "dd", s2l "blockquote", s2l "q",
   s2l "cite", s2l "caption", s2l "th", s2l "td", s2l "pre", s2l "code",
   s2l "strong", s2l "em", s2l "mark", s2l "small", s2l "del", s2l "ins",
   s2l "sub", s2l "sup", s2l "a"]

/-- The `Or` predicate over `Name(tag)` predicates: an element node whose
tag is in the allow-list. -/
def matchesOr : HNode → Bool
  | .text _ => false
  | .elem t _ _ => decide (t ∈ tagList)

/-- `document.find(or_predicate)`: every node of the document matching
the allow-list, in document order. -/
def docFind (d : Doc) : List HNode := (allNodesList d).filter matchesOr

/-- The `Attr("href", ())` predicate: a node carrying an `href`
attribute. -/
def hasHref (n : HNode) : Bool := (attrVal n hrefS).isSome

/-- `node.find(link_predicate)`: the descendants of a selected element
that carry an `href` attribute, in document order. -/
def findLinks (n : HNode) : List HNode := (descendants n).filter hasHref

/-- Whitespace test used by `str::split_whitespace`, restricted to the
ASCII part of Unicode `White_Space` (the only part exercised here). -/
def isWsChar (c : Char) : Bool :=
  c = ' ' || c = '\t' || c = '\n' || c = '\r' || c = '\x0b' || c = '\x0c'

/-- Accumulator-style splitter behind `splitWs`. -/
def splitWsAux : Str → Str → List Str
  | [], acc => if acc.isEmpty then [] else [acc.reverse]
  | c :: rest, acc =>
      if isWsChar c then
        if acc.isEmpty then splitWsAux rest [] else acc.reverse :: splitWsAux rest []
      else splitWsAux rest (c :: acc)

/-- `str::split_whitespace`: maximal runs of non-whitespace characters;
never yields an empty token. -/
def splitWs (s : Str) : List Str := splitWsAux s []

/-- A character allowed by the cleaning regex: the regex is
`[^a-zA-Z']+`, so allowed characters are ASCII letters and the
apostrophe. -/
def isAllowedChar (c : Char) : Bool :=
  ('a' ≤ c && c ≤ 'z') || ('A' ≤ c && c ≤ 'Z') || c = '\''

/-- `re.is_match(&cleaned_word)` for `re = [^a-zA-Z']+`: true iff some
character of the word is outside the allowed set. -/
def reIsMatch (s : Str) : Bool := s.any (fun c => !isAllowedChar c)

/-- The common-word set actually used per page: the first
`common_words_limit` lines of the dictionary file. -/
def commonSet (w : World) (cfg : CrawlConfig) : List Str :=
  w.commonLines.take cfg.common_words_limit

/-- The acceptance test applied to a cleaned (lowercased) token, in the
source's order: not matched by the regex, non-empty, not a common word,
and at least `min_length` long.  `String::len` counts bytes, but a token
passing the regex test is all-ASCII, where bytes and characters agree;
inside this conjunction `List.length` is therefore faithful. -/
def acceptWord (cfg : CrawlConfig) (common : List Str) (cw : Str) : Bool :=
  !reIsMatch cw && !cw.isEmpty && !decide (cw ∈ common) && decide (cfg.min_length ≤ cw.length)

/-- `HashMap<String, u32>` word counts, as an association list. -/
abbrev WordCount := List (Str × Nat)

/-- The count stored for a key, `0` when absent (the read side of
`*word_count.entry(word).or_insert(0)`). -/
def lookupCount (wc : WordCount) (k : Str) : Nat :=
  match wc.find? (fun p => decide (p.1 = k)) with
  | some p => p.2
  | none => 0

/-- `*word_count.entry(k).or_insert(0) += c`. -/
def bump : WordCount → Str → Nat → WordCount
  | [], k, c => [(k, c)]
  | (k', c') :: rest, k, c =>
      if k' = k then (k', c' + c) :: rest else (k', c') :: bump rest k c

/-- The merge loop of `process_node`:
`for (word, count) in new_word_count { *word_count.entry(word).or_insert(0) += count }`. -/
def mergeCounts (wc child : WordCount) : WordCount :=
  child.foldl (fun acc p => bump acc p.1 p.2) wc

/-- The keys of a word-count map. -/
def wcKeys (wc : WordCount) : List Str := wc.map (fun p => p.1)

/-- A word-count map represents a `HashMap` when its keys are distinct. -/
abbrev NodupKeys (wc : WordCount) : Prop := (wcKeys wc).Nodup

/-- The per-element text loop of `unique_words_from_url_recursive`:
NFC-normalize the subtree text, split on whitespace, lowercase each
token, and count it if it passes `acceptWord`. -/
def countElemText (w : World) (cfg : CrawlConfig) (common : List Str) (n : HNode)
    (wc : WordCount) : WordCount :=
  (splitWs (w.nfc (nodeText n))).foldl
    (fun acc word =>
      let cleaned_word := w.lower word
      if acceptWord cfg common cleaned_word then bump acc cleaned_word 1 else acc)
    wc

/-- Result of one recursive crawl call: the `Result` value (`none` models
`Err`), plus the visited set and, for specification purposes, the list of
URLs for which a fetch was attempted, in order. -/
structure CrawlOut where
  res : Option WordCount
  visited : List Url
  fetched : List Url

/-- The mutable state threaded through the element/link loops: the local
word-count map and the two crawl-wide lists. -/
structure LoopState where
  wc : WordCount
  visited : List Url
  fetched : List Url

mutual

/-- `unique_words_from_url_recursive` from the source: check-and-insert
into the visited set (already present: return `Ok(empty)`), fetch the
page (any failure: `Err`, with the URL left in the visited set), then run
the element loop. -/
def unique_words_from_url_recursive (w : World) (cfg : CrawlConfig) (url : Url) (depth : Nat)
    (visited fetched : List Url) : CrawlOut :=
  if url ∈ visited then
    ⟨some [], visited, fetched⟩
  else
    let visited1 := visited ++ [url]
    match w.fetch url with
    | none => ⟨none, visited1, fetched ++ [url]⟩
    | some doc =>
        let st := goElems w cfg url depth (docFind doc) ⟨[], visited1, fetched ++ [url]⟩
        ⟨some st.wc, st.visited, st.fetched⟩
termination_by (cfg.max_depth + 1 - depth, 3, 0)
decreasing_by
  all_goals simp_wf
  all_goals first
    | (apply Prod.Lex.left; omega)
    | (apply Prod.Lex.right; apply Prod.Lex.right; omega)
    | (apply Prod.Lex.right; apply Prod.Lex.left; omega)

/-- The `for node in elements` loop: count the element's subtree text,
then, when `depth <= max_depth`, process each `href`-bearing descendant. -/
def goElems (w : World) (cfg : CrawlConfig) (pageUrl : Url) (depth : Nat)
    (elems : List HNode) (st : LoopState) : LoopState :=
  match elems with
  | [] => st
  | n :: rest =>
      let wc1 := countElemText w cfg (commonSet w cfg) n st.wc
      if h : depth ≤ cfg.max_depth then
        let st1 := goLinks w cfg pageUrl depth (findLinks n) ⟨wc1, st.visited, st.fetched⟩
        goElems w cfg pageUrl depth rest st1
      else
        goElems w cfg pageUrl depth rest ⟨wc1, st.visited, st.fetched⟩
termination_by (cfg.max_depth + 1 - depth, 2, elems.length)
decreasing_by
  all_goals simp_wf
  all_goals first
    | (apply Prod.Lex.left; omega)
    | (apply Prod.Lex.right; apply Prod.Lex.right; omega)
    | (apply Prod.Lex.right; apply Prod.Lex.left; omega)

/-- The `for link_node in node.find(link_predicate)` loop. -/
def goLinks (w : World) (cfg : CrawlConfig) (pageUrl : Url) (depth : Nat)
    (links : List HNode) (st : LoopState) : LoopState :=
  match links with
  | [] => st
  | n :: rest => goLinks w cfg pageUrl depth rest (process_node w cfg n pageUrl depth st)
termination_by (cfg.max_depth + 1 - depth, 1, links.length)
decreasing_by
  all_goals simp_wf
  all_goals first
    | (apply Prod.Lex.left; omega)
    | (apply Prod.Lex.right; apply Prod.Lex.right; omega)
    | (apply Prod.Lex.right; apply Prod.Lex.left; omega)

/-- `process_node` from the source: under the depth bound, resolve the
node's `href` against the current page's URL, apply the scope policy
(`follow_offsite || url.domain() == base_url.domain()`), recurse at
`depth + 1`, and merge an `Ok` child map into the local one (an `Err`
child contributes nothing). -/
def process_node (w : World) (cfg : CrawlConfig) (node : HNode) (base_url : Url) (depth : Nat)
    (st : LoopState) : LoopState :=
  if h : depth ≤ cfg.max_depth then
    match (attrVal node hrefS).bind (fun href => w.join base_url href) with
    | some url =>
        if cfg.follow_offsite || decide (url.domain = base_url.domain) then
          let out := unique_words_from_url_recursive w cfg url (depth + 1) st.visited st.fetched
          match out.res with
          | some new_word_count => ⟨mergeCounts st.wc new_word_count, out.visited, out.fetched⟩
          | none => ⟨st.wc, out.visited, out.fetched⟩
        else st
    | none => st
  else st
termination_by (cfg.max_depth + 1 - depth, 0, 0)
decreasing_by
  all_goals simp_wf
  all_goals first
    | (apply Prod.Lex.left; omega)
    | (apply Prod.Lex.right; apply Prod.Lex.right; omega)
    | (apply Prod.Lex.right; apply Prod.Lex.left; omega)

end

/-- `unique_words_from_url` from the source: URL parsing is the `url`
crate's; a successfully parsed seed starts the recursion at depth 0 with
empty visited set (and empty fetch trace). -/
def unique_words_from_url (w : World) (cfg : CrawlConfig) (parsed_url : Url) : CrawlOut :=
  unique_words_from_url_recursive w cfg parsed_url 0 [] []

/-! ### Concrete worlds for the end-to-end scenarios -/

/-- ASCII lowercasing, the fragment of `str::to_lowercase` exercised by
the concrete scenarios. -/
def asciiLower (s : Str) : Str := s.map Char.toLower

/-- Chain world, seed: page at depth 0 of a three-page chain. -/
def u1a : Url := ⟨10, some (s2l "ex.com")⟩
/-- Chain world: page linked from the seed. -/
def u1b : Url := ⟨11, some (s2l "ex.com")⟩
/-- Chain world: page linked from `u1b`, two hops from the seed. -/
def u1c : Url := ⟨12, some (s2l "ex.com")⟩

/-- Chain world: seed `u1a` links to `u1b`, `u1b` links to `u1c`, `u1c`
is empty; all on one domain. -/
def chainWorld : World where
  fetch u :=
    if u = u1a then some [.elem (s2l "p") [] [.elem (s2l "a") [(hrefS, s2l "b")] []]]
    else if u = u1b then some [.elem (s2l "p") [] [.elem (s2l "a") [(hrefS, s2l "c")] []]]
    else if u = u1c then some []
    else none
  join u h :=
    if u = u1a ∧ h = s2l "b" then some u1b
    else if u = u1b ∧ h = s2l "c" then some u1c
    else none
  nfc s := s
  lower := asciiLower
  commonLines := []

/-- Configuration with `max_depth = 0` for the chain world. -/
def chainCfg : CrawlConfig := ⟨0, 0, false, 1⟩

/-- Self-loop world: its only URL. -/
def u2 : Url := ⟨20, some (s2l "ex.com")⟩

/-- Self-loop world: the seed's only link points back to the seed; the
page text is `"hello hello world"`. -/
def selfLoopWorld : World where
  fetch u :=
    if u = u2 then
      some [.elem (s2l "p") []
        [.text (s2l "hello hello world"), .elem (s2l "a") [(hrefS, s2l "self")] []]]
    else none
  join u h := if u = u2 ∧ h = s2l "self" then some u2 else none
  nfc s := s
  lower := asciiLower
  commonLines := []

/-- Configuration for the self-loop world. -/
def selfLoopCfg : CrawlConfig := ⟨1, 0, false, 1⟩

/-- Cycle world: first page of a two-page cycle. -/
def u3a : Url := ⟨30, some (s2l "ex.com")⟩
/-- Cycle world: second page of the cycle. -/
def u3b : Url := ⟨31, some (s2l "ex.com")⟩

/-- Cycle world: `u3a` links to `u3b` and `u3b` links back to `u3a`. -/
def cycleWorld : World where
  fetch u :=
    if u = u3a then some [.elem (s2l "p") [] [.elem (s2l "a") [(hrefS, s2l "b")] []]]
    else if u = u3b then some [.elem (s2l "p") [] [.elem (s2l "a") [(hrefS, s2l "a")] []]]
    else none
  join u h :=
    if u = u3a ∧ h = s2l "b" then some u3b
    else if u = u3b ∧ h = s2l "a" then some u3a
    else none
  nfc s := s
  lower := asciiLower
  commonLines := []

/-- Configuration for the cycle world: a depth budget (5) far larger than
the cycle. -/
def cycleCfg : CrawlConfig := ⟨5, 0, false, 1⟩

/-- Offsite world: seed on domain `a.com`. -/
def u4s : Url := ⟨40, some (s2l "a.com")⟩
/-- Offsite world: link target on the different domain `b.com`. -/
def u4x : Url := ⟨41, some (s2l "b.com")⟩

/-- Offsite world: the seed's only link resolves to a page on a different
registrable domain. -/
def offsiteWorld : World where
  fetch u :=
    if u = u4s then some [.elem (s2l "p") [] [.elem (s2l "a") [(hrefS, s2l "x")] []]]
    else if u = u4x then some []
    else none
  join u h := if u = u4s ∧ h = s2l "x" then some u4x else none
  nfc s := s
  lower := asciiLower
  commonLines := []

/-- Offsite world, `follow_offsite = false`. -/
def offsiteCfgF : CrawlConfig := ⟨1, 0, false, 1⟩
/-- Offsite world, `follow_offsite = true`. -/
def offsiteCfgT : CrawlConfig := ⟨1, 0, true, 1⟩

/-- Nesting world: its only URL. -/
def u5 : Url := ⟨50, some (s2l "ex.com")⟩

/-- Nesting world: the `<em>world</em>` element. -/
def nestedEm : HNode := .elem (s2l "em") [] [.text (s2l "world")]

/-- Nesting world: the `<p>hello <em>world</em></p>` element. -/
def nestedP : HNode := .elem (s2l "p") [] [.text (s2l "hello "), nestedEm]

/-- Nesting world: the page body, a single paragraph with a nested
emphasis element. -/
def nestedDoc : Doc := [nestedP]

/-- Nesting world: one page whose body is
`<p>hello <em>world</em></p>` and which has no links. -/
def nestedWorld : World where
  fetch u := if u = u5 then some nestedDoc else none
  join _ _ := none
  nfc s := s
  lower := asciiLower
  commonLines := []

/-- Configuration for the nesting world. -/
def nestedCfg : CrawlConfig := ⟨0, 0, false, 1⟩

/-- Failure world: the seed. -/
def u6s : Url := ⟨60, some (s2l "ex.com")⟩
/-- Failure world: the unreachable page. -/
def u6a : Url := ⟨61, some (s2l "ex.com")⟩
/-- Failure world: the reachable sibling page. -/
def u6b : Url := ⟨62, some (s2l "ex.com")⟩

/-- Failure world: the seed links first to `u6a`, whose fetch fails, then
to `u6b`, which contains the word `"jumps"`. -/
def failWorld : World where
  fetch u :=
    if u = u6s then
      some [.elem (s2l "p") []
        [.elem (s2l "a") [(hrefS, s2l "a")] [], .elem (s2l "a") [(hrefS, s2l "b")] []]]
    else if u = u6b then some [.elem (s2l "p") [] [.text (s2l "jumps")]]
    else none
  join u h :=
    if u = u6s ∧ h = s2l "a" then some u6a
    else if u = u6s ∧ h = s2l "b" then some u6b
    else none
  nfc s := s
  lower := asciiLower
  commonLines := []

/-- Configuration for the failure world. -/
def failCfg : CrawlConfig := ⟨1, 0, false, 1⟩

/-- Filter world: its only URL. -/
def u7 : Url := ⟨70, some (s2l "ex.com")⟩

/-- Filter world: one page with the text
`"the ab x9y valid don't"`; the dictionary holds `"the"`. -/
def filterWorld : World where
  fetch u :=
    if u = u7 then some [.elem (s2l "p") [] [.text (s2l "the ab x9y valid don't")]]
    else none
  join _ _ := none
  nfc s := s
  lower := asciiLower
  commonLines := [s2l "the"]

/-- Configuration for the filter world: `min_length = 3`, common-word
limit 400. -/
def filterCfg : CrawlConfig := ⟨0, 400, false, 3⟩

/-- Retry world: the seed. -/
def u9s : Url := ⟨90, some (s2l "ex.com")⟩
/-- Retry world: the failing page, linked twice from the seed. -/
def u9a : Url := ⟨91, some (s2l "ex.com")⟩

/-- Retry world: the seed links twice to `u9a`, whose fetch fails. -/
def retryWorld : World where
  fetch u :=
    if u = u9s then
      some [.elem (s2l "p") []
        [.elem (s2l "a") [(hrefS, s2l "a")] [], .elem (s2l "a") [(hrefS, s2l "a")] []]]
    else none
  join u h := if u = u9s ∧ h = s2l "a" then some u9a else none
  nfc s := s
  lower := asciiLower
  commonLines := []

/-- Configuration for the retry world. -/
def retryCfg : CrawlConfig := ⟨2, 0, false, 1⟩

/-- IP world: seed whose URL has no domain name (IP-address host). -/
def u10s : Url := ⟨100, none⟩
/-- IP world: link target at a different IP-address host, also without a
domain name. -/
def u10x : Url := ⟨101, none⟩

/-- IP world: the seed (no domain name) links to a URL at a completely
different host that also has no domain name. -/
def ipWorld : World where
  fetch u :=
    if u = u10s then some [.elem (s2l "p") [] [.elem (s2l "a") [(hrefS, s2l "x")] []]]
    else if u = u10x then some []
    else none
  join u h := if u = u10s ∧ h = s2l "x" then some u10x else none
  nfc s := s
  lower := asciiLower
  commonLines := []

/-- Configuration for the IP world (`follow_offsite = false`). -/
def ipCfg : CrawlConfig := ⟨1, 0, false, 1⟩

/-! ### Specification-side definitions -/

/-- Total count carried by the entries of an association list under a
given key (used to relate merging with per-entry sums). -/
def keySum (wc : WordCount) (k : Str) : Nat :=
  (wc.map (fun p => if p.1 = k then p.2 else 0)).sum

/-- Crawl-wide invariant between the visited set and the fetch trace: no
URL is fetched twice, and every fetched URL is recorded as visited. -/
def VisOk (visited fetched : List Url) : Prop :=
  fetched.Nodup ∧ ∀ u ∈ fetched, u ∈ visited

/-- How one crawl step relates input and output visited sets and fetch
traces: the visited set only grows, the fetch trace is only appended to,
and `VisOk` is preserved. -/
def StepOk (v f v' f' : List Url) : Prop :=
  v ⊆ v' ∧ (∃ d, f' = f ++ d) ∧ (VisOk v f → VisOk v' f')

/-- Induction motive for `unique_words_from_url_recursive`: the call is a
`StepOk` step. -/
def M1 (w : World) (cfg : CrawlConfig) (url : Url) (depth : Nat)
    (visited fetched : List Url) : Prop :=
  StepOk visited fetched
    (unique_words_from_url_recursive w cfg url depth visited fetched).visited
    (unique_words_from_url_recursive w cfg url depth visited fetched).fetched

/-- Induction motive for `goElems`: the element loop is a `StepOk` step. -/
def M2 (w : World) (cfg : CrawlConfig) (pageUrl : Url) (depth : Nat)
    (elems : List HNode) (st : LoopState) : Prop :=
  StepOk st.visited st.fetched
    (goElems w cfg pageUrl depth elems st).visited
    (goElems w cfg pageUrl depth elems st).fetched

/-- Induction motive for `goLinks`: the link loop is a `StepOk` step. -/
def M3 (w : World) (cfg : CrawlConfig) (pageUrl : Url) (depth : Nat)
    (links : List HNode) (st : LoopState) : Prop :=
  StepOk st.visited st.fetched
    (goLinks w cfg pageUrl depth links st).visited
    (goLinks w cfg pageUrl depth links st).fetched

/-- Induction motive for `process_node`: processing a link node is a
`StepOk` step. -/
def M4 (w : World) (cfg : CrawlConfig) (node : HNode) (base_url : Url) (depth : Nat)
    (st : LoopState) : Prop :=
  StepOk st.visited st.fetched
    (process_node w cfg node base_url depth st).visited
    (process_node w cfg node base_url depth st).fetched

/-! ### Word-count map lemmas -/

theorem lookupCount_nil (k : Str) : lookupCount [] k = 0 := rfl

theorem lookupCount_cons (k1 : Str) (c1 : Nat) (rest : WordCount) (k : Str) :
    lookupCount ((k1, c1) :: rest) k = if k1 = k then c1 else lookupCount rest k := by
  by_cases h : k1 = k <;> simp [lookupCount, List.find?_cons, h]

theorem lookupCount_bump (wc : WordCount) (k : Str) (c : Nat) (k' : Str) :
    lookupCount (bump wc k c) k' = lookupCount wc k' + if k = k' then c else 0 := by
  induction wc with
  | nil =>
      by_cases h : k = k' <;> simp [bump, lookupCount_cons, lookupCount_nil, h]
  | cons p rest ih =>
      obtain ⟨k1, c1⟩ := p
      by_cases h1 : k1 = k
      · subst h1
        by_cases h2 : k1 = k' <;> simp [bump, lookupCount_cons, h2]
      · have hb : bump ((k1, c1) :: rest) k c = (k1, c1) :: bump rest k c := by
          simp [bump, h1]
        rw [hb, lookupCount_cons, lookupCount_cons]
        by_cases h2 : k1 = k'
        · have h3 : ¬ (k = k') := fun hh => h1 (by rw [hh, ← h2])
          simp [h2, h3]
        · simp [h2, ih]

theorem mergeCounts_nil (wc : WordCount) : mergeCounts wc [] = wc := rfl

theorem mergeCounts_cons (wc : WordCount) (p : Str × Nat) (rest : WordCount) :
    mergeCounts wc (p :: rest) = mergeCounts (bump wc p.1 p.2) rest := rfl

theorem keySum_nil (k : Str) : keySum [] k = 0 := rfl

theorem keySum_cons (p : Str × Nat) (rest : WordCount) (k : Str) :
    keySum (p :: rest) k = (if p.1 = k then p.2 else 0) + keySum rest k := by
  simp [keySum]

theorem lookupCount_mergeCounts (m2 : WordCount) :
    ∀ (m1 : WordCount) (k : Str),
      lookupCount (mergeCounts m1 m2) k = lookupCount m1 k + keySum m2 k := by
  induction m2 with
  | nil => intro m1 k; simp [mergeCounts_nil, keySum_nil]
  | cons p rest ih =>
      intro m1 k
      rw [mergeCounts_cons, keySum_cons, ih, lookupCount_bump]
      omega

theorem keySum_eq_zero_of_not_mem (wc : WordCount) (k : Str) (h : k ∉ wcKeys wc) :
    keySum wc k = 0 := by
  induction wc with
  | nil => rfl
  | cons p rest ih =>
      rw [keySum_cons]
      have h1 : ¬ (p.1 = k) := fun hh => h (by simp [wcKeys, hh])
      have h2 : k ∉ wcKeys rest := fun hh => h (by simp [wcKeys] at hh ⊢; right; exact hh)
      simp [h1, ih h2]

theorem lookupCount_eq_zero_of_not_mem (wc : WordCount) (k : Str) (h : k ∉ wcKeys wc) :
    lookupCount wc k = 0 := by
  induction wc with
  | nil => rfl
  | cons p rest ih =>
      rw [show p = (p.1, p.2) from rfl, lookupCount_cons]
      have h1 : ¬ (p.1 = k) := fun hh => h (by simp [wcKeys, hh])
      have h2 : k ∉ wcKeys rest := fun hh => h (by simp [wcKeys] at hh ⊢; right; exact hh)
      simp [h1, ih h2]

theorem keySum_eq_lookupCount (wc : WordCount) (k : Str) (h : NodupKeys wc) :
    keySum wc k = lookupCount wc k := by
  induction wc with
  | nil => rfl
  | cons p rest ih =>
      rw [keySum_cons, show p = (p.1, p.2) from rfl, lookupCount_cons]
      have hnd : NodupKeys rest ∧ p.1 ∉ wcKeys rest := by
        unfold NodupKeys wcKeys at h ⊢
        rw [List.map_cons, List.nodup_cons] at h
        exact ⟨h.2, h.1⟩
      by_cases h1 : p.1 = k
      · subst h1
        rw [keySum_eq_zero_of_not_mem rest p.1 hnd.2]
        simp
      · simp [h1, ih hnd.1]

theorem wcKeys_bump (wc : WordCount) (k : Str) (c : Nat) :
    wcKeys (bump wc k c) = if k ∈ wcKeys wc then wcKeys wc else wcKeys wc ++ [k] := by
  induction wc with
  | nil => simp [bump, wcKeys]
  | cons p rest ih =>
      obtain ⟨k1, c1⟩ := p
      by_cases h1 : k1 = k
      · subst h1
        simp [bump, wcKeys]
      · have hb : bump ((k1, c1) :: rest) k c = (k1, c1) :: bump rest k c := by
          simp [bump, h1]
        rw [hb]
        have hk : wcKeys ((k1, c1) :: bump rest k c) = k1 :: wcKeys (bump rest k c) := rfl
        have hk2 : wcKeys ((k1, c1) :: rest) = k1 :: wcKeys rest := rfl
        rw [hk, hk2, ih]
        have hne : ¬ (k = k1) := fun hh => h1 hh.symm
        by_cases h2 : k ∈ wcKeys rest <;> simp [h2, hne]

theorem nodupKeys_bump (wc : WordCount) (k : Str) (c : Nat) (h : NodupKeys wc) :
    NodupKeys (bump wc k c) := by
  unfold NodupKeys at h ⊢
  rw [wcKeys_bump]
  by_cases h2 : k ∈ wcKeys wc
  · simpa [h2]
  · rw [if_neg h2]
    exact List.Nodup.append h (List.nodup_singleton k) (by simpa using h2)

theorem nodupKeys_mergeCounts (m2 : WordCount) :
    ∀ m1 : WordCount, NodupKeys m1 → NodupKeys (mergeCounts m1 m2) := by
  induction m2 with
  | nil => intro m1 h; exact h
  | cons p rest ih =>
      intro m1 h
      rw [mergeCounts_cons]
      exact ih _ (nodupKeys_bump m1 p.1 p.2 h)

/-! ### Tokenizer lemmas -/

theorem splitWsAux_ne_nil (s : Str) :
    ∀ (acc t : Str), t ∈ splitWsAux s acc → t ≠ [] := by
  induction s with
  | nil =>
      intro acc t ht
      by_cases h : acc.isEmpty
      · simp [splitWsAux, h] at ht
      · simp [splitWsAux, h] at ht
        subst ht
        simp [List.isEmpty_iff] at h
        simpa using fun hh => h (by simpa using congrArg List.reverse hh)
  | cons c rest ih =>
      intro acc t ht
      by_cases hws : isWsChar c
      · by_cases h : acc.isEmpty
        · simp [splitWsAux, hws, h] at ht
          exact ih [] t ht
        · simp [splitWsAux, hws, h] at ht
          rcases ht with ht | ht
          · subst ht
            simp [List.isEmpty_iff] at h
            simpa using fun hh => h (by simpa using congrArg List.reverse hh)
          · exact ih [] t ht
      · simp [splitWsAux, hws] at ht
        exact ih (c :: acc) t ht

theorem splitWs_ne_nil (s t : Str) (h : t ∈ splitWs s) : t ≠ [] :=
  splitWsAux_ne_nil s [] t h

/-! ### Step invariant lemmas -/

theorem stepOk_refl (v f : List Url) : StepOk v f v f :=
  ⟨fun _ h => h, ⟨[], by simp⟩, fun h => h⟩

theorem stepOk_trans {v f v' f' v'' f'' : List Url}
    (h1 : StepOk v f v' f') (h2 : StepOk v' f' v'' f'') : StepOk v f v'' f'' := by
  obtain ⟨m1, ⟨d1, hd1⟩, p1⟩ := h1
  obtain ⟨m2, ⟨d2, hd2⟩, p2⟩ := h2
  exact ⟨m1.trans m2, ⟨d1 ++ d2, by rw [hd2, hd1, List.append_assoc]⟩, fun h => p2 (p1 h)⟩

theorem stepOk_insert (url : Url) (v f : List Url) (h : url ∉ v) :
    StepOk v f (v ++ [url]) (f ++ [url]) := by
  refine ⟨fun x hx => by simp [hx], ⟨[url], rfl⟩, fun hv => ⟨?_, ?_⟩⟩
  · refine List.Nodup.append hv.1 (List.nodup_singleton url) ?_
    intro a ha hb
    rw [List.mem_singleton] at hb
    subst hb
    exact h (hv.2 a ha)
  · intro u hu
    rcases List.mem_append.mp hu with hu | hu
    · exact List.mem_append.mpr (Or.inl (hv.2 u hu))
    · exact List.mem_append.mpr (Or.inr hu)

theorem invCase1 (w : World) (cfg : CrawlConfig) :
    ∀ (url : Url) (depth : Nat) (visited fetched : List Url),
      url ∈ visited → M1 w cfg url depth visited fetched := by
  intro url depth visited fetched h
  unfold M1
  rw [unique_words_from_url_recursive.eq_def, if_pos h]
  exact stepOk_refl _ _

theorem invCase2 (w : World) (cfg : CrawlConfig) :
    ∀ (url : Url) (depth : Nat) (visited fetched : List Url),
      url ∉ visited → w.fetch url = none → M1 w cfg url depth visited fetched := by
  intro url depth visited fetched h hf
  unfold M1
  rw [unique_words_from_url_recursive.eq_def, if_neg h, hf]
  exact stepOk_insert url visited fetched h

theorem invCase3 (w : World) (cfg : CrawlConfig) :
    ∀ (url : Url) (depth : Nat) (visited fetched : List Url),
      url ∉ visited →
        ∀ (doc : Doc),
          w.fetch url = some doc →
            M2 w cfg url depth (docFind doc) ⟨[], visited ++ [url], fetched ++ [url]⟩ →
              M1 w cfg url depth visited fetched := by
  intro url depth visited fetched h doc hf ih
  unfold M1
  rw [unique_words_from_url_recursive.eq_def, if_neg h, hf]
  unfold M2 at ih
  exact stepOk_trans (stepOk_insert url visited fetched h) ih

theorem invCase4 (w : World) (cfg : CrawlConfig) :
    ∀ (pageUrl : Url) (depth : Nat) (st : LoopState), M2 w cfg pageUrl depth [] st := by
  intro pageUrl depth st
  unfold M2
  rw [goElems.eq_def]
  exact stepOk_refl _ _

theorem invCase5 (w : World) (cfg : CrawlConfig) :
    ∀ (pageUrl : Url) (depth : Nat) (st : LoopState) (n : HNode) (ns : List HNode),
      depth ≤ cfg.max_depth →
        M3 w cfg pageUrl depth (findLinks n)
            ⟨countElemText w cfg (commonSet w cfg) n st.wc, st.visited, st.fetched⟩ →
          M3 w cfg pageUrl depth (findLinks n)
              ⟨countElemText w cfg (commonSet w cfg) n st.wc, st.visited, st.fetched⟩ →
            M2 w cfg pageUrl depth ns
                (goLinks w cfg pageUrl depth (findLinks n)
                  ⟨countElemText w cfg (commonSet w cfg) n st.wc, st.visited, st.fetched⟩) →
              M2 w cfg pageUrl depth (n :: ns) st := by
  intro pageUrl depth st n ns h ih3 _ ih2
  unfold M2
  rw [goElems.eq_def]
  simp only [dif_pos h]
  unfold M3 at ih3
  unfold M2 at ih2
  exact stepOk_trans ih3 ih2

theorem invCase6 (w : World) (cfg : CrawlConfig) :
    ∀ (pageUrl : Url) (depth : Nat) (st : LoopState) (n : HNode) (ns : List HNode),
      ¬depth ≤ cfg.max_depth →
        M2 w cfg pageUrl depth ns
            ⟨countElemText w cfg (commonSet w cfg) n st.wc, st.visited, st.fetched⟩ →
          M2 w cfg pageUrl depth (n :: ns) st := by
  intro pageUrl depth st n ns h ih
  unfold M2
  rw [goElems.eq_def]
  simp only [dif_neg h]
  unfold M2 at ih
  exact ih

theorem invCase7 (w : World) (cfg : CrawlConfig) :
    ∀ (pageUrl : Url) (depth : Nat) (st : LoopState), M3 w cfg pageUrl depth [] st := by
  intro pageUrl depth st
  unfold M3
  rw [goLinks.eq_def]
  exact stepOk_refl _ _

theorem invCase8 (w : World) (cfg : CrawlConfig) :
    ∀ (pageUrl : Url) (depth : Nat) (st : LoopState) (n : HNode) (ns : List HNode),
      M4 w cfg n pageUrl depth st →
        M3 w cfg pageUrl depth ns (process_node w cfg n pageUrl depth st) →
          M3 w cfg pageUrl depth (n :: ns) st := by
  intro pageUrl depth st n ns ih4 ih3
  unfold M3
  rw [goLinks.eq_def]
  unfold M4 at ih4
  unfold M3 at ih3
  exact stepOk_trans ih4 ih3

theorem invCase9 (w : World) (cfg : CrawlConfig) :
    ∀ (node : HNode) (base_url : Url) (depth : Nat) (st : LoopState),
      depth ≤ cfg.max_depth →
        ∀ (url : Url),
          ((attrVal node hrefS).bind fun href => w.join base_url href) = some url →
            (cfg.follow_offsite || decide (url.domain = base_url.domain)) = true →
              ∀ (new_word_count : WordCount),
                (unique_words_from_url_recursive w cfg url (depth + 1) st.visited st.fetched).res =
                    some new_word_count →
                  M1 w cfg url (depth + 1) st.visited st.fetched →
                    M4 w cfg node base_url depth st := by
  intro node base_url depth st h url hbind hscope nwc hres ih
  unfold M4
  rw [process_node.eq_def]
  simp only [dif_pos h, hbind, hscope, if_true, hres]
  unfold M1 at ih
  exact ih

theorem invCase10 (w : World) (cfg : CrawlConfig) :
    ∀ (node : HNode) (base_url : Url) (depth : Nat) (st : LoopState),
      depth ≤ cfg.max_depth →
        ∀ (url : Url),
          ((attrVal node hrefS).bind fun href => w.join base_url href) = some url →
            (cfg.follow_offsite || decide (url.domain = base_url.domain)) = true →
              (unique_words_from_url_recursive w cfg url (depth + 1) st.visited st.fetched).res =
                  none →
                M1 w cfg url (depth + 1) st.visited st.fetched →
                  M4 w cfg node base_url depth st := by
  intro node base_url depth st h url hbind hscope hres ih
  unfold M4
  rw [process_node.eq_def]
  simp only [dif_pos h, hbind, hscope, if_true, hres]
  unfold M1 at ih
  exact ih

theorem invCase11 (w : World) (cfg : CrawlConfig) :
    ∀ (node : HNode) (base_url : Url) (depth : Nat) (st : LoopState),
      depth ≤ cfg.max_depth →
        ∀ (url : Url),
          ((attrVal node hrefS).bind fun href => w.join base_url href) = some url →
            ¬(cfg.follow_offsite || decide (url.domain = base_url.domain)) = true →
              M4 w cfg node base_url depth st := by
  intro node base_url depth st h url hbind hscope
  unfold M4
  rw [process_node.eq_def]
  simp only [dif_pos h, hbind, Bool.not_eq_true] at *
  simp only [hscope, if_false]
  exact stepOk_refl _ _

theorem invCase12 (w : World) (cfg : CrawlConfig) :
    ∀ (node : HNode) (base_url : Url) (depth : Nat) (st : LoopState),
      depth ≤ cfg.max_depth →
        ((attrVal node hrefS).bind fun href => w.join base_url href) = none →
          M4 w cfg node base_url depth st := by
  intro node base_url depth st h hbind
  unfold M4
  rw [process_node.eq_def]
  simp only [dif_pos h, hbind]
  exact stepOk_refl _ _

theorem invCase13 (w : World) (cfg : CrawlConfig) :
    ∀ (node : HNode) (base_url : Url) (depth : Nat) (st : LoopState),
      ¬depth ≤ cfg.max_depth → M4 w cfg node base_url depth st := by
  intro node base_url depth st h
  unfold M4
  rw [process_node.eq_def]
  simp only [dif_neg h]
  exact stepOk_refl _ _

/-- The crawl-call invariant: every call only grows the visited set, only
appends to the fetch trace, and preserves `VisOk`. -/
theorem inv_crawl (w : World) (cfg : CrawlConfig) :
    ∀ (url : Url) (depth : Nat) (visited fetched : List Url),
      M1 w cfg url depth visited fetched :=
  unique_words_from_url_recursive.induct w cfg (M1 w cfg) (M2 w cfg) (M3 w cfg) (M4 w cfg)
    (invCase1 w cfg) (invCase2 w cfg) (invCase3 w cfg) (invCase4 w cfg) (invCase5 w cfg)
    (invCase6 w cfg) (invCase7 w cfg) (invCase8 w cfg) (invCase9 w cfg) (invCase10 w cfg)
    (invCase11 w cfg) (invCase12 w cfg) (invCase13 w cfg)

/-- The element-loop invariant, as `inv_crawl`. -/
theorem inv_goElems (w : World) (cfg : CrawlConfig) :
    ∀ (pageUrl : Url) (depth : Nat) (elems : List HNode) (st : LoopState),
      M2 w cfg pageUrl depth elems st :=
  goElems.induct w cfg (M1 w cfg) (M2 w cfg) (M3 w cfg) (M4 w cfg)
    (invCase1 w cfg) (invCase2 w cfg) (invCase3 w cfg) (invCase4 w cfg) (invCase5 w cfg)
    (invCase6 w cfg) (invCase7 w cfg) (invCase8 w cfg) (invCase9 w cfg) (invCase10 w cfg)
    (invCase11 w cfg) (invCase12 w cfg) (invCase13 w cfg)

/-- A URL already in the visited set: the call returns `Ok(empty)` at
once, untouched state, no fetch. -/
theorem uwfur_visited_eq (w : World) (cfg : CrawlConfig) (url : Url) (depth : Nat)
    (visited fetched : List Url) (h : url ∈ visited) :
    unique_words_from_url_recursive w cfg url depth visited fetched =
      ⟨some [], visited, fetched⟩ := by
  rw [unique_words_from_url_recursive.eq_def, if_pos h]

/-- A fresh URL whose fetch fails: `Err`, but the URL stays inserted in
the visited set and the fetch was attempted. -/
theorem uwfur_fetchfail_eq (w : World) (cfg : CrawlConfig) (url : Url) (depth : Nat)
    (visited fetched : List Url) (h : url ∉ visited) (hf : w.fetch url = none) :
    unique_words_from_url_recursive w cfg url depth visited fetched =
      ⟨none, visited ++ [url], fetched ++ [url]⟩ := by
  rw [unique_words_from_url_recursive.eq_def, if_neg h, hf]

/-- A fresh URL whose fetch succeeds: the element loop runs from the
inserted state and the result is `Ok`. -/
theorem uwfur_fetchok_eq (w : World) (cfg : CrawlConfig) (url : Url) (depth : Nat)
    (visited fetched : List Url) (doc : Doc) (h : url ∉ visited)
    (hf : w.fetch url = some doc) :
    unique_words_from_url_recursive w cfg url depth visited fetched =
      ⟨some (goElems w cfg url depth (docFind doc) ⟨[], visited ++ [url], fetched ++ [url]⟩).wc,
       (goElems w cfg url depth (docFind doc) ⟨[], visited ++ [url], fetched ++ [url]⟩).visited,
       (goElems w cfg url depth (docFind doc) ⟨[], visited ++ [url], fetched ++ [url]⟩).fetched⟩ := by
  rw [unique_words_from_url_recursive.eq_def, if_neg h, hf]

/-- The call returns `Err` exactly when the URL was fresh and its own
fetch failed. -/
theorem uwfur_res_none_iff (w : World) (cfg : CrawlConfig) (url : Url) (depth : Nat)
    (visited fetched : List Url) :
    (unique_words_from_url_recursive w cfg url depth visited fetched).res = none ↔
      (url ∉ visited ∧ w.fetch url = none) := by
  by_cases h : url ∈ visited
  · rw [uwfur_visited_eq w cfg url depth visited fetched h]
    simp [h]
  · cases hf : w.fetch url with
    | none => rw [uwfur_fetchfail_eq w cfg url depth visited fetched h hf]; simp [h]
    | some doc => rw [uwfur_fetchok_eq w cfg url depth visited fetched doc h hf]; simp [h, hf]

/-- A fresh URL ends up in the visited set of its own call. -/
theorem uwfur_mem_visited (w : World) (cfg : CrawlConfig) (url : Url) (depth : Nat)
    (visited fetched : List Url) (h : url ∉ visited) :
    url ∈ (unique_words_from_url_recursive w cfg url depth visited fetched).visited := by
  cases hf : w.fetch url with
  | none =>
      rw [uwfur_fetchfail_eq w cfg url depth visited fetched h hf]
      simp
  | some doc =>
      rw [uwfur_fetchok_eq w cfg url depth visited fetched doc h hf]
      have hm := (inv_goElems w cfg url depth (docFind doc)
        ⟨[], visited ++ [url], fetched ++ [url]⟩).1
      exact hm (by simp)

/-- A fresh URL gets its fetch attempted by its own call. -/
theorem uwfur_mem_fetched (w : World) (cfg : CrawlConfig) (url : Url) (depth : Nat)
    (visited fetched : List Url) (h : url ∉ visited) :
    url ∈ (unique_words_from_url_recursive w cfg url depth visited fetched).fetched := by
  cases hf : w.fetch url with
  | none =>
      rw [uwfur_fetchfail_eq w cfg url depth visited fetched h hf]
      simp
  | some doc =>
      rw [uwfur_fetchok_eq w cfg url depth visited fetched doc h hf]
      obtain ⟨d, hd⟩ := (inv_goElems w cfg url depth (docFind doc)
        ⟨[], visited ++ [url], fetched ++ [url]⟩).2.1
      simp only [hd]
      simp

/-- Above the depth bound the element loop only counts words: visited set
and fetch trace pass through unchanged. -/
theorem goElems_deep (w : World) (cfg : CrawlConfig) (pageUrl : Url) (depth : Nat)
    (h : ¬depth ≤ cfg.max_depth) :
    ∀ (elems : List HNode) (st : LoopState),
      (goElems w cfg pageUrl depth elems st).visited = st.visited ∧
        (goElems w cfg pageUrl depth elems st).fetched = st.fetched := by
  intro elems
  induction elems with
  | nil => intro st; rw [goElems.eq_def]; exact ⟨rfl, rfl⟩
  | cons n ns ih =>
      intro st
      rw [goElems.eq_def]
      simp only [dif_neg h]
      exact ih _

/-- A call above the depth bound attempts at most its own fetch: the
trace gains nothing (already-visited URL) or exactly the called URL. -/
theorem uwfur_deep_fetched (w : World) (cfg : CrawlConfig) (url : Url) (depth : Nat)
    (visited fetched : List Url) (h : ¬depth ≤ cfg.max_depth) :
    (unique_words_from_url_recursive w cfg url depth visited fetched).fetched = fetched ∨
      (unique_words_from_url_recursive w cfg url depth visited fetched).fetched =
        fetched ++ [url] := by
  by_cases hv : url ∈ visited
  · rw [uwfur_visited_eq w cfg url depth visited fetched hv]
    exact Or.inl rfl
  · cases hf : w.fetch url with
    | none =>
        rw [uwfur_fetchfail_eq w cfg url depth visited fetched hv hf]
        exact Or.inr rfl
    | some doc =>
        rw [uwfur_fetchok_eq w cfg url depth visited fetched doc hv hf]
        exact Or.inr ((goElems_deep w cfg url depth h (docFind doc) _).2)

/-! ### Claim theorems -/

/-- C2: each distinct absolute URL is fetched at most once in any crawl
(the check-and-insert on the visited set is the dedup gate), and in the
concrete self-loop scenario the seed is fetched exactly once with its
words counted exactly once. -/
theorem C2_fetch_at_most_once :
    (∀ (w : World) (cfg : CrawlConfig) (seed : Url),
        (unique_words_from_url w cfg seed).fetched.Nodup) ∧
      (unique_words_from_url selfLoopWorld selfLoopCfg u2).fetched = [u2] ∧
      (unique_words_from_url selfLoopWorld selfLoopCfg u2).res =
        some [(s2l "hello", 2), (s2l "world", 1)] := by
  refine ⟨fun w cfg seed => ?_, ?_, ?_⟩
  · have h := (inv_crawl w cfg seed 0 [] []).2.2 ⟨List.nodup_nil, by simp⟩
    exact h.1
  · simp [unique_words_from_url, unique_words_from_url_recursive, goElems, goLinks, process_node,
      countElemText, docFind, findLinks, descendants, allNodes, allNodesList, matchesOr, tagList,
      attrVal, hrefS, s2l, nodeText, nodeTextList, splitWs, splitWsAux, isWsChar, acceptWord,
      reIsMatch, isAllowedChar, commonSet, bump, mergeCounts, lookupCount, hasHref, asciiLower,
      selfLoopWorld, selfLoopCfg, u2]
  · simp [unique_words_from_url, unique_words_from_url_recursive, goElems, goLinks, process_node,
      countElemText, docFind, findLinks, descendants, allNodes, allNodesList, matchesOr, tagList,
      attrVal, hrefS, s2l, nodeText, nodeTextList, splitWs, splitWsAux, isWsChar, acceptWord,
      reIsMatch, isAllowedChar, commonSet, bump, mergeCounts, lookupCount, hasHref, asciiLower,
      selfLoopWorld, selfLoopCfg, u2]

/-- C3: every recursive call either returns immediately (URL already
visited, state untouched) or strictly grows the visited set by the URL it
inserts; the visited set never shrinks; concretely, a two-page cycle
terminates with each page fetched once although the depth budget (5)
allows six hops. -/
theorem C3_termination_invariant :
    (∀ (w : World) (cfg : CrawlConfig) (url : Url) (depth : Nat) (visited fetched : List Url),
        (url ∈ visited →
          unique_words_from_url_recursive w cfg url depth visited fetched =
            ⟨some [], visited, fetched⟩) ∧
        (url ∉ visited →
          url ∈ (unique_words_from_url_recursive w cfg url depth visited fetched).visited) ∧
        visited ⊆ (unique_words_from_url_recursive w cfg url depth visited fetched).visited) ∧
      (unique_words_from_url cycleWorld cycleCfg u3a).fetched = [u3a, u3b] := by
  refine ⟨fun w cfg url depth visited fetched => ⟨?_, ?_, ?_⟩, ?_⟩
  · exact uwfur_visited_eq w cfg url depth visited fetched
  · exact uwfur_mem_visited w cfg url depth visited fetched
  · exact (inv_crawl w cfg url depth visited fetched).1
  · simp [unique_words_from_url, unique_words_from_url_recursive, goElems, goLinks, process_node,
      countElemText, docFind, findLinks, descendants, allNodes, allNodesList, matchesOr, tagList,
      attrVal, hrefS, s2l, nodeText, nodeTextList, splitWs, splitWsAux, isWsChar, acceptWord,
      reIsMatch, isAllowedChar, commonSet, bump, mergeCounts, lookupCount, hasHref, asciiLower,
      cycleWorld, cycleCfg, u3a, u3b]

/-- Witness for C3 at a concrete input: the cycle seed, not yet visited,
ends up in the visited set of its own call. -/
theorem C3_termination_invariant_witness :
    u3a ∈ (unique_words_from_url_recursive cycleWorld cycleCfg u3a 0 [] []).visited :=
  (C3_termination_invariant.1 cycleWorld cycleCfg u3a 0 [] []).2.1 (by simp)

/-- C9: a URL is inserted into the visited set before its fetch is
attempted and the insertion is not rolled back on a fetch error, so an
already-visited URL is answered with an empty map and never re-fetched;
concretely, a page linked twice whose fetch fails is attempted exactly
once. -/
theorem C9_no_retry :
    (∀ (w : World) (cfg : CrawlConfig) (url : Url) (depth : Nat) (visited fetched : List Url),
        url ∈ visited →
          unique_words_from_url_recursive w cfg url depth visited fetched =
            ⟨some [], visited, fetched⟩) ∧
      (∀ (w : World) (cfg : CrawlConfig) (url : Url) (depth : Nat) (visited fetched : List Url),
        url ∉ visited → w.fetch url = none →
          unique_words_from_url_recursive w cfg url depth visited fetched =
            ⟨none, visited ++ [url], fetched ++ [url]⟩) ∧
      (unique_words_from_url retryWorld retryCfg u9s).fetched = [u9s, u9a] ∧
      (unique_words_from_url retryWorld retryCfg u9s).res = some [] := by
  refine ⟨uwfur_visited_eq, uwfur_fetchfail_eq, ?_, ?_⟩
  · simp [unique_words_from_url, unique_words_from_url_recursive, goElems, goLinks, process_node,
      countElemText, docFind, findLinks, descendants, allNodes, allNodesList, matchesOr, tagList,
      attrVal, hrefS, s2l, nodeText, nodeTextList, splitWs, splitWsAux, isWsChar, acceptWord,
      reIsMatch, isAllowedChar, commonSet, bump, mergeCounts, lookupCount, hasHref, asciiLower,
      retryWorld, retryCfg, u9s, u9a]
  · simp [unique_words_from_url, unique_words_from_url_recursive, goElems, goLinks, process_node,
      countElemText, docFind, findLinks, descendants, allNodes, allNodesList, matchesOr, tagList,
      attrVal, hrefS, s2l, nodeText, nodeTextList, splitWs, splitWsAux, isWsChar, acceptWord,
      reIsMatch, isAllowedChar, commonSet, bump, mergeCounts, lookupCount, hasHref, asciiLower,
      retryWorld, retryCfg, u9s, u9a]

/-- Witness for C9 at a concrete input: rediscovering the failed URL of
the retry world returns the empty map with the state untouched. -/
theorem C9_no_retry_witness :
    unique_words_from_url_recursive retryWorld retryCfg u9a 1 [u9s, u9a] [u9s, u9a] =
      ⟨some [], [u9s, u9a], [u9s, u9a]⟩ :=
  C9_no_retry.1 retryWorld retryCfg u9a 1 [u9s, u9a] [u9s, u9a] (by simp)

/-- C1 counterexample: with `max_depth = 0` the crawl of the chain world
fetches the seed AND the page its link resolves to — the guard
`depth <= max_depth` holds at the seed (0 <= 0), so the seed's links are
followed; the claim that no page other than the seed is requested is
false. -/
theorem C1_counterexample :
    (unique_words_from_url chainWorld chainCfg u1a).fetched = [u1a, u1b] ∧ u1b ≠ u1a := by
  constructor
  · simp [unique_words_from_url, unique_words_from_url_recursive, goElems, goLinks, process_node,
      countElemText, docFind, findLinks, descendants, allNodes, allNodesList, matchesOr, tagList,
      attrVal, hrefS, s2l, nodeText, nodeTextList, splitWs, splitWsAux, isWsChar, acceptWord,
      reIsMatch, isAllowedChar, commonSet, bump, mergeCounts, lookupCount, hasHref, asciiLower,
      chainWorld, chainCfg, u1a, u1b, u1c]
  · decide

/-- C1 (amended): a page fetched at depth `d` has its links followed iff
`d ≤ max_depth`; above the bound a call attempts at most its own fetch,
while at `max_depth = 0` the seed (depth 0, `0 ≤ 0`) does have its links
fetched at depth 1 — so the chain crawl fetches exactly the seed and its
direct link, and not the page two hops away. -/
theorem C1_depth_gating :
    (∀ (w : World) (cfg : CrawlConfig) (url : Url) (depth : Nat) (visited fetched : List Url),
        ¬depth ≤ cfg.max_depth →
          ((unique_words_from_url_recursive w cfg url depth visited fetched).fetched = fetched ∨
            (unique_words_from_url_recursive w cfg url depth visited fetched).fetched =
              fetched ++ [url])) ∧
      u1b ∈ (unique_words_from_url chainWorld chainCfg u1a).fetched ∧
      u1c ∉ (unique_words_from_url chainWorld chainCfg u1a).fetched := by
  have h : (unique_words_from_url chainWorld chainCfg u1a).fetched = [u1a, u1b] := by
    simp [unique_words_from_url, unique_words_from_url_recursive, goElems, goLinks, process_node,
      countElemText, docFind, findLinks, descendants, allNodes, allNodesList, matchesOr, tagList,
      attrVal, hrefS, s2l, nodeText, nodeTextList, splitWs, splitWsAux, isWsChar, acceptWord,
      reIsMatch, isAllowedChar, commonSet, bump, mergeCounts, lookupCount, hasHref, asciiLower,
      chainWorld, chainCfg, u1a, u1b, u1c]
  refine ⟨uwfur_deep_fetched, ?_, ?_⟩
  · rw [h]
    simp
  · rw [h]
    decide

/-- Witness for C1 at a concrete input: the chain page fetched at depth 1
exceeds the bound `max_depth = 0`, so its call adds at most itself to the
fetch trace. -/
theorem C1_depth_gating_witness :
    (unique_words_from_url_recursive chainWorld chainCfg u1b 1 [u1a] [u1a]).fetched = [u1a] ∨
      (unique_words_from_url_recursive chainWorld chainCfg u1b 1 [u1a] [u1a]).fetched =
        [u1a] ++ [u1b] :=
  C1_depth_gating.1 chainWorld chainCfg u1b 1 [u1a] [u1a] (by decide)

/-- C5 counterexample: in the page `<p>hello <em>world</em></p>` the
single textual appearance of `world` is counted twice, not once — both
the `p` element and the nested `em` element are selected, and each is
scanned with its whole subtree text. -/
theorem C5_counterexample :
    lookupCount ((unique_words_from_url nestedWorld nestedCfg u5).res.getD []) (s2l "world")
        = 2 ∧
      lookupCount ((unique_words_from_url nestedWorld nestedCfg u5).res.getD []) (s2l "world")
        ≠ 1 := by
  have h : (unique_words_from_url nestedWorld nestedCfg u5).res =
      some [(s2l "hello", 1), (s2l "world", 2)] := by
    simp [unique_words_from_url, unique_words_from_url_recursive, goElems, goLinks, process_node,
      countElemText, docFind, findLinks, descendants, allNodes, allNodesList, matchesOr, tagList,
      attrVal, hrefS, s2l, nodeText, nodeTextList, splitWs, splitWsAux, isWsChar, acceptWord,
      reIsMatch, isAllowedChar, commonSet, bump, mergeCounts, lookupCount, hasHref, asciiLower,
      nestedWorld, nestedCfg, nestedDoc, nestedP, nestedEm, u5]
  rw [h]
  constructor
  · simp [lookupCount, s2l]
  · simp [lookupCount, s2l]

/-- C5 (amended): the text extracted for a selected element is the text
of its whole subtree, and `document.find` selects nested allow-listed
elements too, so a token occurrence contributes once per selected element
whose subtree contains it: in `<p>hello <em>world</em></p>` both `p` and
`em` are selected, `world` (nested once) is counted twice and `hello`
(not nested) once. -/
theorem C5_subtree_text :
    nodeText nestedP = s2l "hello world" ∧
      nodeText nestedEm = s2l "world" ∧
      docFind nestedDoc = [nestedP, nestedEm] ∧
      (unique_words_from_url nestedWorld nestedCfg u5).res =
        some [(s2l "hello", 1), (s2l "world", 2)] := by
  refine ⟨by simp [nestedP, nestedEm, nodeText, nodeTextList, s2l], ?_, ?_, ?_⟩
  · simp [nestedEm, nodeText, nodeTextList]
  · simp [docFind, nestedDoc, nestedP, nestedEm, allNodesList, allNodes, matchesOr, tagList, s2l]
  · simp [unique_words_from_url, unique_words_from_url_recursive, goElems, goLinks, process_node,
      countElemText, docFind, findLinks, descendants, allNodes, allNodesList, matchesOr, tagList,
      attrVal, hrefS, s2l, nodeText, nodeTextList, splitWs, splitWsAux, isWsChar, acceptWord,
      reIsMatch, isAllowedChar, commonSet, bump, mergeCounts, lookupCount, hasHref, asciiLower,
      nestedWorld, nestedCfg, nestedDoc, nestedP, nestedEm, u5]

/-- C4: for a discovered link resolving to `url` on a page `base`, with
`follow_offsite = false` a link whose domain differs from the containing
page's is never fetched (the state is returned untouched), and with
`follow_offsite = true` it is fetched subject only to the depth bound and
the visited-set check; the comparison is between the resolved link's
domain and the containing page's domain. -/
theorem C4_scope_policy :
    ∀ (w : World) (cfg : CrawlConfig) (node : HNode) (base : Url) (depth : Nat) (st : LoopState)
      (href : Str) (url : Url),
      attrVal node hrefS = some href → w.join base href = some url →
      ((cfg.follow_offsite = false → url.domain ≠ base.domain →
          process_node w cfg node base depth st = st) ∧
        (cfg.follow_offsite = true → depth ≤ cfg.max_depth → url ∉ st.visited →
          url ∈ (process_node w cfg node base depth st).fetched) ∧
        (cfg.follow_offsite = true → depth ≤ cfg.max_depth → url ∈ st.visited →
          process_node w cfg node base depth st = st)) := by
  intro w cfg node base depth st href url hhref hjoin
  have hbind : ((attrVal node hrefS).bind fun h => w.join base h) = some url := by
    rw [hhref]
    simpa using hjoin
  refine ⟨?_, ?_, ?_⟩
  · intro hoff hdom
    by_cases hd : depth ≤ cfg.max_depth
    · rw [process_node.eq_def]
      have hsc : (cfg.follow_offsite || decide (url.domain = base.domain)) = false := by
        rw [hoff]
        simp [hdom]
      simp only [dif_pos hd, hbind, hsc, Bool.false_eq_true, if_false]
    · rw [process_node.eq_def]
      simp only [dif_neg hd]
  · intro hoff hd hvis
    rw [process_node.eq_def]
    simp only [dif_pos hd, hbind, hoff, Bool.true_or, if_true]
    cases hres : (unique_words_from_url_recursive w cfg url (depth + 1) st.visited st.fetched).res
      with
    | none =>
        simp only [hres]
        exact uwfur_mem_fetched w cfg url (depth + 1) st.visited st.fetched hvis
    | some nwc =>
        simp only [hres]
        exact uwfur_mem_fetched w cfg url (depth + 1) st.visited st.fetched hvis
  · intro hoff hd hvis
    rw [process_node.eq_def]
    simp only [dif_pos hd, hbind, hoff, Bool.true_or, if_true]
    rw [uwfur_visited_eq w cfg url (depth + 1) st.visited st.fetched hvis]
    rfl

/-- Witness for C4 at a concrete input: in the offsite world with
`follow_offsite = false`, processing the seed's link to the other domain
leaves the state untouched (the link is not fetched). -/
theorem C4_scope_policy_witness :
    process_node offsiteWorld offsiteCfgF (HNode.elem (s2l "a") [(hrefS, s2l "x")] []) u4s 0
        ⟨[], [u4s], [u4s]⟩ = ⟨[], [u4s], [u4s]⟩ :=
  (C4_scope_policy offsiteWorld offsiteCfgF (HNode.elem (s2l "a") [(hrefS, s2l "x")] []) u4s 0
      ⟨[], [u4s], [u4s]⟩ (s2l "x") u4x (by decide) (by decide)).1 (by decide) (by decide)

/-- C10: the same-site test is equality of the `Option`-valued domains,
so on a page whose URL has no domain name every link resolving to a URL
that also has no domain name — even at a completely different host —
passes the scope check (`none = none`) and is fetched as if same-site,
with `follow_offsite = false`. -/
theorem C10_none_domain_followed :
    (∀ (w : World) (cfg : CrawlConfig) (node : HNode) (base : Url) (depth : Nat) (st : LoopState)
        (href : Str) (url : Url),
        cfg.follow_offsite = false →
        attrVal node hrefS = some href → w.join base href = some url →
        url.domain = none → base.domain = none →
        depth ≤ cfg.max_depth → url ∉ st.visited →
        url ∈ (process_node w cfg node base depth st).fetched) ∧
      (unique_words_from_url ipWorld ipCfg u10s).fetched = [u10s, u10x] := by
  constructor
  · intro w cfg node base depth st href url hoff hhref hjoin hdu hdb hd hvis
    have hbind : ((attrVal node hrefS).bind fun h => w.join base h) = some url := by
      rw [hhref]
      simpa using hjoin
    rw [process_node.eq_def]
    have hsc : (cfg.follow_offsite || decide (url.domain = base.domain)) = true := by
      rw [hoff, hdu, hdb]
      simp
    simp only [dif_pos hd, hbind, hsc, if_true]
    cases hres : (unique_words_from_url_recursive w cfg url (depth + 1) st.visited st.fetched).res
      with
    | none =>
        simp only [hres]
        exact uwfur_mem_fetched w cfg url (depth + 1) st.visited st.fetched hvis
    | some nwc =>
        simp only [hres]
        exact uwfur_mem_fetched w cfg url (depth + 1) st.visited st.fetched hvis
  · simp [unique_words_from_url, unique_words_from_url_recursive, goElems, goLinks, process_node,
      countElemText, docFind, findLinks, descendants, allNodes, allNodesList, matchesOr, tagList,
      attrVal, hrefS, s2l, nodeText, nodeTextList, splitWs, splitWsAux, isWsChar, acceptWord,
      reIsMatch, isAllowedChar, commonSet, bump, mergeCounts, lookupCount, hasHref, asciiLower,
      ipWorld, ipCfg, u10s, u10x]

/-- Witness for C10 at a concrete input: in the IP world the link from
the no-domain seed to a different no-domain host is fetched despite
`follow_offsite = false`. -/
theorem C10_none_domain_followed_witness :
    u10x ∈ (process_node ipWorld ipCfg (HNode.elem (s2l "a") [(hrefS, s2l "x")] []) u10s 0
        ⟨[], [u10s], [u10s]⟩).fetched :=
  C10_none_domain_followed.1 ipWorld ipCfg (HNode.elem (s2l "a") [(hrefS, s2l "x")] []) u10s 0
    ⟨[], [u10s], [u10s]⟩ (s2l "x") u10x (by decide) (by decide) (by decide) (by decide)
    (by decide) (by decide) (by decide)

/-- C6: an `Err` from a recursive call is caught at the call site in
`process_node` and contributes nothing to the word count; a call whose
own fetch succeeds always returns `Ok` (child failures never surface);
concretely, the failure world still aggregates the reachable sibling's
word and returns `Ok`. -/
theorem C6_branch_error_contained :
    (∀ (w : World) (cfg : CrawlConfig) (node : HNode) (base : Url) (depth : Nat) (st : LoopState)
        (href : Str) (url : Url),
        depth ≤ cfg.max_depth →
        attrVal node hrefS = some href → w.join base href = some url →
        (cfg.follow_offsite || decide (url.domain = base.domain)) = true →
        (unique_words_from_url_recursive w cfg url (depth + 1) st.visited st.fetched).res =
            none →
        (process_node w cfg node base depth st).wc = st.wc) ∧
      (∀ (w : World) (cfg : CrawlConfig) (url : Url) (depth : Nat) (visited fetched : List Url)
        (doc : Doc),
        w.fetch url = some doc →
        (unique_words_from_url_recursive w cfg url depth visited fetched).res.isSome) ∧
      (unique_words_from_url failWorld failCfg u6s).res = some [(s2l "jumps", 1)] ∧
      (unique_words_from_url failWorld failCfg u6s).fetched = [u6s, u6a, u6b] := by
  refine ⟨?_, ?_, ?_, ?_⟩
  · intro w cfg node base depth st href url hd hhref hjoin hscope hres
    have hbind : ((attrVal node hrefS).bind fun h => w.join base h) = some url := by
      rw [hhref]
      simpa using hjoin
    rw [process_node.eq_def]
    simp only [dif_pos hd, hbind, hscope, if_true, hres]
  · intro w cfg url depth visited fetched doc hf
    by_cases hv : url ∈ visited
    · rw [uwfur_visited_eq w cfg url depth visited fetched hv]
      rfl
    · rw [uwfur_fetchok_eq w cfg url depth visited fetched doc hv hf]
      rfl
  · simp [unique_words_from_url, unique_words_from_url_recursive, goElems, goLinks, process_node,
      countElemText, docFind, findLinks, descendants, allNodes, allNodesList, matchesOr, tagList,
      attrVal, hrefS, s2l, nodeText, nodeTextList, splitWs, splitWsAux, isWsChar, acceptWord,
      reIsMatch, isAllowedChar, commonSet, bump, mergeCounts, lookupCount, hasHref, asciiLower,
      failWorld, failCfg, u6s, u6a, u6b]
  · simp [unique_words_from_url, unique_words_from_url_recursive, goElems, goLinks, process_node,
      countElemText, docFind, findLinks, descendants, allNodes, allNodesList, matchesOr, tagList,
      attrVal, hrefS, s2l, nodeText, nodeTextList, splitWs, splitWsAux, isWsChar, acceptWord,
      reIsMatch, isAllowedChar, commonSet, bump, mergeCounts, lookupCount, hasHref, asciiLower,
      failWorld, failCfg, u6s, u6a, u6b]

/-- Witness for C6 at a concrete input: processing the failing link of
the failure world leaves the word count unchanged. -/
theorem C6_branch_error_contained_witness :
    (process_node failWorld failCfg (HNode.elem (s2l "a") [(hrefS, s2l "a")] []) u6s 0
        ⟨[], [u6s], [u6s]⟩).wc = [] :=
  C6_branch_error_contained.1 failWorld failCfg (HNode.elem (s2l "a") [(hrefS, s2l "a")] [])
    u6s 0 ⟨[], [u6s], [u6s]⟩ (s2l "a") u6a (by decide) (by decide) (by decide) (by decide)
    (by simp [unique_words_from_url_recursive, failWorld, u6s, u6a, u6b, s2l])

/-- C7: a nonempty cleaned token is accepted iff every character is an
ASCII letter or apostrophe, it is not in the common-word set, and its
length is at least `min_length`; tokens from whitespace splitting are
never empty; a common-list word is never counted and a too-short token is
never counted; the concrete filter page keeps exactly the valid tokens. -/
theorem C7_token_filter :
    (∀ (cfg : CrawlConfig) (common : List Str) (cw : Str), cw ≠ [] →
        (acceptWord cfg common cw = true ↔
          ((∀ c ∈ cw, isAllowedChar c = true) ∧ cw ∉ common ∧
            cfg.min_length ≤ cw.length))) ∧
      (∀ (s t : Str), t ∈ splitWs s → t ≠ []) ∧
      (∀ (cfg : CrawlConfig) (common : List Str) (cw : Str),
        cw ∈ common → acceptWord cfg common cw = false) ∧
      (∀ (cfg : CrawlConfig) (common : List Str) (cw : Str),
        cw.length < cfg.min_length → acceptWord cfg common cw = false) ∧
      (unique_words_from_url filterWorld filterCfg u7).res =
        some [(s2l "valid", 1), (s2l "don't", 1)] := by
  refine ⟨?_, splitWs_ne_nil, ?_, ?_, ?_⟩
  · intro cfg common cw hne
    simp [acceptWord, reIsMatch, hne, and_assoc]
  · intro cfg common cw h
    simp [acceptWord, h]
  · intro cfg common cw h
    have hn : ¬cfg.min_length ≤ cw.length := Nat.not_le.mpr h
    simp [acceptWord, hn]
  · simp [unique_words_from_url, unique_words_from_url_recursive, goElems, goLinks, process_node,
      countElemText, docFind, findLinks, descendants, allNodes, allNodesList, matchesOr, tagList,
      attrVal, hrefS, s2l, nodeText, nodeTextList, splitWs, splitWsAux, isWsChar, acceptWord,
      reIsMatch, isAllowedChar, commonSet, bump, mergeCounts, lookupCount, hasHref, asciiLower,
      filterWorld, filterCfg, u7]

/-- Witness for C7 at concrete inputs: the common word `"the"` and the
too-short token `"ab"` are both rejected by the filter of the filter
world. -/
theorem C7_token_filter_witness :
    acceptWord filterCfg [s2l "the"] (s2l "the") = false ∧
      acceptWord filterCfg [] (s2l "ab") = false :=
  ⟨C7_token_filter.2.2.1 filterCfg [s2l "the"] (s2l "the") (by decide),
   C7_token_filter.2.2.2.1 filterCfg [] (s2l "ab") (by decide)⟩

/-- C8: merging one frequency map into another adds counts per token, so
the merged count of any token is the sum of the two counts, and merged
lookups are commutative and associative (order-independent
aggregation). -/
theorem C8_merge_order_independent :
    ∀ (m1 m2 m3 : WordCount) (k : Str),
      NodupKeys m1 → NodupKeys m2 → NodupKeys m3 →
      (lookupCount (mergeCounts m1 m2) k = lookupCount m1 k + lookupCount m2 k ∧
        lookupCount (mergeCounts m1 m2) k = lookupCount (mergeCounts m2 m1) k ∧
        lookupCount (mergeCounts (mergeCounts m1 m2) m3) k =
          lookupCount (mergeCounts m1 (mergeCounts m2 m3)) k) := by
  intro m1 m2 m3 k h1 h2 h3
  have s12 : lookupCount (mergeCounts m1 m2) k = lookupCount m1 k + lookupCount m2 k := by
    rw [lookupCount_mergeCounts m2 m1 k, keySum_eq_lookupCount m2 k h2]
  have s21 : lookupCount (mergeCounts m2 m1) k = lookupCount m2 k + lookupCount m1 k := by
    rw [lookupCount_mergeCounts m1 m2 k, keySum_eq_lookupCount m1 k h1]
  have s23 : lookupCount (mergeCounts m2 m3) k = lookupCount m2 k + lookupCount m3 k := by
    rw [lookupCount_mergeCounts m3 m2 k, keySum_eq_lookupCount m3 k h3]
  refine ⟨s12, by rw [s12, s21]; omega, ?_⟩
  rw [lookupCount_mergeCounts m3 (mergeCounts m1 m2) k, keySum_eq_lookupCount m3 k h3, s12,
    lookupCount_mergeCounts (mergeCounts m2 m3) m1 k,
    keySum_eq_lookupCount (mergeCounts m2 m3) k (nodupKeys_mergeCounts m3 m2 h2), s23]
  omega

/-- Witness for C8 at concrete maps: the merged count of `"b"` is the sum
of the two counts. -/
theorem C8_merge_order_independent_witness :
    lookupCount (mergeCounts [(s2l "a", 1), (s2l "b", 2)] [(s2l "b", 3)]) (s2l "b") =
        lookupCount [(s2l "a", 1), (s2l "b", 2)] (s2l "b") +
          lookupCount [(s2l "b", 3)] (s2l "b") ∧
      lookupCount (mergeCounts [(s2l "a", 1), (s2l "b", 2)] [(s2l "b", 3)]) (s2l "b") =
        lookupCount (mergeCounts [(s2l "b", 3)] [(s2l "a", 1), (s2l "b", 2)]) (s2l "b") ∧
      lookupCount
          (mergeCounts (mergeCounts [(s2l "a", 1), (s2l "b", 2)] [(s2l "b", 3)]) [(s2l "c", 4)])
          (s2l "b") =
        lookupCount
          (mergeCounts [(s2l "a", 1), (s2l "b", 2)] (mergeCounts [(s2l "b", 3)] [(s2l "c", 4)]))
          (s2l "b") :=
  C8_merge_order_independent [(s2l "a", 1), (s2l "b", 2)] [(s2l "b", 3)] [(s2l "c", 4)]
    (s2l "b") (by decide) (by decide) (by decide)
